import Mathlib

/-!
Verification development for `flexynesis` (GNNEarly model, file
`flexynesis/models/gnn_early.py`).

The Python code operates on float tensors; the embedding is polymorphic over a
`LinearOrderedField α` (instantiated at `ℝ` or `ℚ` in concrete statements) and
abstracts the transcendental functions `torch.exp` / `torch.log` as explicit
function parameters `expF`, `logF`, so that every definition stays computable.
Tensors become lists: a column tensor is a `List α`, a 2-D tensor a
`List (List α)` (one inner list per row/sample).  A float `NaN` label is
modelled as `none` in `Option`-valued label lists, matching the
`torch.isnan` masks in `compute_loss`.

The GNN encoder (`GNNs`) and the per-variable heads (`MLP`) are imported by
the source from `flexynesis.modules`, which is outside the corpus; they are
abstracted as opaque per-sample functions stored in the model record.  The
torch-geometric `DataLoader` with `batch_size=len(dataset), shuffle=False`
followed by the pooling GNN yields one embedding row per sample in dataset
order; this is modelled by `load_full_batch` returning the dataset's graph
list unchanged.
-/

namespace Flexynesis

/-- The two value kinds stored in `variable_types` (the survival event
variable is itself marked numerical, see the comment at gnn_early.py:38). -/
inductive VarType where
  | numerical
  | categorical
deriving DecidableEq

variable {α : Type} [LinearOrderedField α] {γ : Type}

/-- State of a `GNNEarly` model relevant to loss computation and inference
(gnn_early.py:21-80).  `encode` is the GNN encoder restricted to a single
sample graph (type `γ`); `mlps var` is the supervisory head for `var`. -/
structure GNNEarlyModel (α γ : Type) where
  vars : List String
  variable_types : String → VarType
  use_loss_weighting : Bool
  log_vars : String → α
  encode : γ → List α
  mlps : String → List α → List α

/-- A `MultiOmicGeometricDataset`: sample identifiers plus one graph per
sample, aligned index-for-index. -/
structure GeomDataset (γ : Type) where
  samples : List String
  graphs : List γ
  hlen : graphs.length = samples.length

/-- `DataLoader(dataset, batch_size=len(dataset), shuffle=False)` followed by
`next(iter(...))`: the whole dataset as one batch, in dataset order
(gnn_early.py:174-175, 190-191). -/
def load_full_batch (ds : GeomDataset γ) : List γ := ds.graphs

/-- `GNNEarly.forward` (gnn_early.py:82-87): encode the batch, then apply the
head of `var` to every embedding row. -/
def forward (m : GNNEarlyModel α γ) (batch : List γ) (var : String) : List (List α) :=
  (batch.map m.encode).map (m.mlps var)

/-- `GNNEarly.compute_total_loss` (gnn_early.py:160-170).  `losses` is the
insertion-ordered dict of per-variable losses; `expF` stands for
`torch.exp`. -/
def compute_total_loss (expF : α → α) (use_loss_weighting : Bool) (log_vars : String → α)
    (losses : List (String × α)) : α :=
  if use_loss_weighting = true ∧ 1 < losses.length then
    (losses.map (fun p => expF (-(log_vars p.1)) * p.2 + log_vars p.1)).sum
  else
    (losses.map Prod.snd).sum

/-- The per-variable loss dict built by the identical loops of
`training_step` (gnn_early.py:94-105) and `validation_step`
(gnn_early.py:116-127); `lossOf` abstracts the shared loop body (cox loss for
the survival variable, `compute_loss` otherwise). -/
def step_losses (vars : List String) (lossOf : String → α) : List (String × α) :=
  vars.map (fun v => (v, lossOf v))

/-- Total loss returned by `GNNEarly.training_step` (gnn_early.py:107). -/
def training_step_total (expF : α → α) (m : GNNEarlyModel α γ) (lossOf : String → α) : α :=
  compute_total_loss expF m.use_loss_weighting m.log_vars (step_losses m.vars lossOf)

/-- Total loss returned by `GNNEarly.validation_step`
(gnn_early.py:129: `total_loss = sum(losses.values())`). -/
def validation_step_total (m : GNNEarlyModel α γ) (lossOf : String → α) : α :=
  ((step_losses m.vars lossOf).map Prod.snd).sum

/-- The masked (label, prediction) pairs kept by the numerical branch of
`compute_loss` (gnn_early.py:141-144): a sample survives iff its label is not
NaN (`none`). -/
def valid_num_pairs (y : List (Option α)) (y_hat : List α) : List (α × α) :=
  (y.zip y_hat).filterMap (fun p => p.1.map (fun v => (v, p.2)))

/-- Numerical branch of `GNNEarly.compute_loss` (gnn_early.py:139-147):
mean squared error over non-NaN samples, literal `0` when none survive. -/
def compute_loss_numerical (y : List (Option α)) (y_hat : List α) : α :=
  let valid := valid_num_pairs y y_hat
  if 0 < valid.length then
    ((valid.map (fun p => (p.2 - p.1) ^ 2)).sum) / (valid.length : α)
  else 0

/-- The masked (label, logits) pairs kept by the categorical branch of
`compute_loss` (gnn_early.py:151-154): a sample survives iff its label is not
NaN (`none`) and differs from the missing sentinel `-1`. -/
def valid_cat_pairs (y : List (Option ℤ)) (y_hat : List (List α)) : List (ℤ × List α) :=
  (y.zip y_hat).filterMap (fun p =>
    match p.1 with
    | some v => if v = -1 then none else some (v, p.2)
    | none => none)

/-- Cross-entropy of one sample: `-log softmax(logits)[label]`, written as
`log (Σ exp logits) - logits[label]` with `expF`/`logF` for
`torch.exp`/`torch.log`. -/
def cross_entropy (expF logF : α → α) (logits : List α) (label : ℕ) : α :=
  logF ((logits.map expF).sum) - logits.getD label 0

/-- Categorical branch of `GNNEarly.compute_loss` (gnn_early.py:148-157):
mean cross-entropy (`F.cross_entropy` default reduction) over samples whose
label is valid, literal `0` when none survive. -/
def compute_loss_categorical (expF logF : α → α) (y : List (Option ℤ))
    (y_hat : List (List α)) : α :=
  let valid := valid_cat_pairs y y_hat
  if 0 < valid.length then
    ((valid.map (fun p => cross_entropy expF logF p.2 p.1.toNat)).sum) / (valid.length : α)
  else 0

/-- Spec-side mean squared error of `F.mse_loss(pred, target)` (default mean
reduction), for comparing `compute_loss_numerical` against the spec's
"mean squared error over the remainder". -/
def mse (pred target : List α) : α :=
  (((pred.zip target).map (fun p => (p.1 - p.2) ^ 2)).sum) / ((pred.zip target).length : α)

/-- Spec-side masked prediction column for a numerical variable: the entries
of `y_hat` at positions where the label is present (`y_hat[valid_indices]`). -/
def masked_preds (y : List (Option α)) (y_hat : List α) : List α :=
  ((y.zip y_hat).filter (fun p => p.1.isSome)).map Prod.snd

/-- Spec-side masked label column for a categorical variable: the labels that
are present and differ from the missing sentinel `-1`. -/
def masked_cat_labels (y : List (Option ℤ)) : List ℤ :=
  y.filterMap (fun o =>
    match o with
    | some v => if v = -1 then none else some v
    | none => none)

/-- Spec-side masked logits rows for a categorical variable: the rows of
`y_hat` at positions whose label is valid (`y_hat[valid_indices]`). -/
def masked_cat_logits (y : List (Option ℤ)) (y_hat : List (List α)) : List (List α) :=
  ((y.zip y_hat).filter (fun p =>
    match p.1 with
    | some v => decide (v ≠ -1)
    | none => false)).map Prod.snd

/-- Spec-side mean cross-entropy over aligned logits rows and labels. -/
def mean_cross_entropy (expF logF : α → α) (logits : List (List α)) (labels : List ℤ) : α :=
  (((logits.zip labels).map (fun p => cross_entropy expF logF p.1 p.2.toNat)).sum) /
    ((logits.zip labels).length : α)

/-- `np.argmax` over one row of outputs: index of the first occurrence of the
maximal entry (`0` on the empty row, which numpy rejects). -/
def argmax_idx : List α → ℕ
  | [] => 0
  | [_] => 0
  | a :: b :: rest =>
    let j := argmax_idx (b :: rest)
    if a < (b :: rest).getD j a then j + 1 else 0

/-- Per-variable output of `GNNEarly.predict`: an integer class-index array
for a categorical variable, the raw output rows otherwise. -/
inductive Prediction (α : Type) where
  | cats (idx : List ℕ)
  | nums (vals : List (List α))
deriving DecidableEq

/-- `GNNEarly.predict` (gnn_early.py:172-184), restricted to one variable of
the `self.variables` loop: forward the whole dataset as a single batch, then
arg-max the logits row-wise for a categorical variable and keep the raw
output otherwise.  The embedding is pure, so no parameter is updated. -/
def predict (m : GNNEarlyModel α γ) (ds : GeomDataset γ) (var : String) : Prediction α :=
  let y_pred := forward m (load_full_batch ds) var
  if m.variable_types var = .categorical then .cats (y_pred.map argmax_idx)
  else .nums y_pred

/-- The `pandas.DataFrame` built by `GNNEarly.transform`. -/
structure DataFrame (α : Type) where
  index : List String
  columns : List String
  rows : List (List α)
deriving DecidableEq

/-- `GNNEarly.transform` (gnn_early.py:187-200): encode the whole dataset as
one batch and wrap the embedding rows in a data frame indexed by
`dataset.samples` with columns `E0`, `E1`, ... (one per latent dimension,
`embeddings.shape[1]`). -/
def transform (m : GNNEarlyModel α γ) (ds : GeomDataset γ) : DataFrame α :=
  let embeddings := (load_full_batch ds).map m.encode
  { index := ds.samples
    columns := (List.range (embeddings.headD []).length).map (fun d => "E" ++ toString d)
    rows := embeddings }

/-- Modelled from the spec: `cox_ph_loss` is imported from
`flexynesis.modules`, which is not part of the corpus.  Spec (section 4.3):
"negative log of (exp(risk_i) / sum of exp(risk_j) over the risk set at
time_i), summed over events only", the risk set at `time_i` being the samples
whose duration is `≥ time_i` in the batch. -/
def cox_ph_loss (expF logF : α → α) (risks durations : List α) (events : List Bool) : α :=
  ((risks.zip (durations.zip events)).filterMap (fun s =>
    if s.2.2 then
      some (logF (((risks.zip (durations.zip events)).filterMap (fun t =>
        if s.2.1 ≤ t.2.1 then some (expF t.1) else none)).sum) - s.1)
    else none)).sum

/-- `len(np.unique(col))`: the number of distinct values in an annotation
column (gnn_early.py:75). -/
def n_unique (col : List ℤ) : ℕ := col.dedup.length

/-- Output dimension of the supervisory head built for a variable at model
construction (gnn_early.py:71-80): `1` for a numerical variable, otherwise
`len(np.unique(self.ann[var]))`. -/
def output_dim (vt : VarType) (ann_col : List ℤ) : ℕ :=
  if vt = .numerical then 1 else n_unique ann_col

/-! ## Theorems -/

/-- C4: `compute_total_loss` returns the `exp(-log_var) * loss + log_var`
weighted sum when uncertainty weighting is enabled and more than one task is
present, and the plain sum of the losses when weighting is disabled or only a
single task is present. -/
theorem compute_total_loss_spec (expF : α → α) (useW : Bool) (lv : String → α)
    (losses : List (String × α)) :
    (useW = true ∧ 1 < losses.length →
      compute_total_loss expF useW lv losses =
        (losses.map (fun p => expF (-(lv p.1)) * p.2 + lv p.1)).sum) ∧
    ((useW = false ∨ losses.length ≤ 1) →
      compute_total_loss expF useW lv losses = (losses.map Prod.snd).sum) := by
  constructor
  · intro h
    simp only [compute_total_loss, if_pos h]
  · intro h
    have hne : ¬ (useW = true ∧ 1 < losses.length) := by
      rcases h with h | h
      · intro hc
        rw [h] at hc
        exact Bool.false_ne_true hc.1
      · intro hc
        omega
    simp only [compute_total_loss, if_neg hne]

/-- Witness for C4: both branches of `compute_total_loss_spec` evaluated on a
concrete two-task loss dict. -/
theorem compute_total_loss_spec_w :
    compute_total_loss (α := ℚ) (fun x => x + 1) true (fun _ => 0)
      [("age", 1), ("stage", 2)] = 3 ∧
    compute_total_loss (α := ℚ) (fun x => x + 1) false (fun _ => 0)
      [("age", 1), ("stage", 2)] = 3 := by
  constructor
  · rw [(compute_total_loss_spec (fun x => x + 1) true (fun _ => 0)
      [("age", 1), ("stage", 2)]).1 ⟨rfl, by decide⟩]
    norm_num
  · rw [(compute_total_loss_spec (fun x => x + 1) false (fun _ => 0)
      [("age", 1), ("stage", 2)]).2 (Or.inl rfl)]
    norm_num

/-- C5: on a single-task loss dict, `compute_total_loss` returns that task's
unweighted loss, whatever the weighting flag and the log-variance values. -/
theorem compute_total_loss_single_task (expF : α → α) (useW : Bool) (lv : String → α)
    (n : String) (l : α) :
    compute_total_loss expF useW lv [(n, l)] = l := by
  simp [compute_total_loss]

/-- C1 counterexample: with uncertainty weighting enabled and two tasks, the
total returned by `validation_step` (plain sum, here `0`) differs from
`compute_total_loss` on the same per-variable losses (here
`exp(-1)*0 + 1` twice, i.e. `2`). -/
theorem validation_step_weighting_cx :
    ¬ (validation_step_total (α := ℝ)
        ⟨["purity", "subtype"], fun _ => .numerical, true, fun _ => 1,
          fun _ : Unit => [], fun _ _ => []⟩ (fun _ => 0) =
       training_step_total Real.exp
        ⟨["purity", "subtype"], fun _ => .numerical, true, fun _ => 1,
          fun _ : Unit => [], fun _ _ => []⟩ (fun _ => 0)) := by
  simp only [validation_step_total, training_step_total, compute_total_loss, step_losses]
  norm_num

/-- C1 (amended): the aggregate validation loss of `validation_step` is the
plain unweighted sum of the per-variable losses; it coincides with the
training aggregation `compute_total_loss` exactly when uncertainty weighting
is disabled or at most one task is present. -/
theorem validation_step_plain_sum (expF : α → α) (m : GNNEarlyModel α γ)
    (lossOf : String → α) :
    validation_step_total m lossOf = (m.vars.map lossOf).sum ∧
    ((m.use_loss_weighting = false ∨ m.vars.length ≤ 1) →
      validation_step_total m lossOf = training_step_total expF m lossOf) := by
  constructor
  · simp only [validation_step_total, step_losses, List.map_map]
    rfl
  · intro h
    have hlen : (step_losses m.vars lossOf).length = m.vars.length := by
      simp [step_losses]
    have hne : ¬ (m.use_loss_weighting = true ∧ 1 < (step_losses m.vars lossOf).length) := by
      rcases h with h | h
      · intro hc
        rw [h] at hc
        exact Bool.false_ne_true hc.1
      · intro hc
        rw [hlen] at hc
        omega
    simp only [training_step_total, compute_total_loss, if_neg hne, validation_step_total]

/-- Witness for C1's amended theorem: a concrete single-task model, where the
validation total agrees with the training total. -/
theorem validation_step_plain_sum_w :
    validation_step_total (α := ℚ)
      ⟨["age"], fun _ => .numerical, true, fun _ => 0, fun _ : Unit => [], fun _ _ => []⟩
      (fun _ => 5) =
    training_step_total id
      ⟨["age"], fun _ => .numerical, true, fun _ => 0, fun _ : Unit => [], fun _ _ => []⟩
      (fun _ => 5) := by
  exact (validation_step_plain_sum id
    ⟨["age"], fun _ => .numerical, true, fun _ => 0, fun _ : Unit => [], fun _ _ => []⟩
    (fun _ => 5)).2 (Or.inr (by decide))

omit [LinearOrderedField α] in
/-- The second components of the pairs kept by the numerical mask are exactly
the predictions at the positions whose label is present. -/
lemma valid_num_pairs_snd (y : List (Option α)) (y_hat : List α) :
    (valid_num_pairs y y_hat).map Prod.snd = masked_preds y y_hat := by
  unfold valid_num_pairs masked_preds
  induction y.zip y_hat with
  | nil => rfl
  | cons p t ih =>
    cases hp : p.1 <;>
      simp [List.filterMap_cons, List.filter_cons, hp, ih]

omit [LinearOrderedField α] in
/-- The first components of the pairs kept by the numerical mask are exactly
the labels that are present (for equal-length columns). -/
lemma valid_num_pairs_fst :
    ∀ (y : List (Option α)) (y_hat : List α), y.length = y_hat.length →
      (valid_num_pairs y y_hat).map Prod.fst = y.filterMap id := by
  intro y
  induction y with
  | nil => intro y_hat h; simp [valid_num_pairs]
  | cons o t ih =>
    intro y_hat h
    cases y_hat with
    | nil => simp at h
    | cons a as =>
      have ht : t.length = as.length := by simpa using h
      cases o with
      | none =>
        simpa [valid_num_pairs, List.filterMap_cons] using ih as ht
      | some v =>
        simpa [valid_num_pairs, List.filterMap_cons] using ih as ht

/-- C2: for equal-length label and prediction columns, the numerical branch
of `compute_loss` equals the mean squared error over the samples whose label
is present, and is exactly `0` when no label is present. -/
theorem compute_loss_numerical_spec (y : List (Option α)) (y_hat : List α)
    (h : y.length = y_hat.length) :
    compute_loss_numerical y y_hat =
      if y.filterMap id = [] then 0
      else mse (masked_preds y y_hat) (y.filterMap id) := by
  have hsnd := valid_num_pairs_snd y y_hat
  have hfst := valid_num_pairs_fst y y_hat h
  by_cases hv : valid_num_pairs y y_hat = []
  · rw [if_pos (by rw [← hfst, hv]; rfl)]
    simp [compute_loss_numerical, hv]
  · have hnil : y.filterMap id ≠ [] := by
      rw [← hfst]
      simpa using hv
    rw [if_neg hnil]
    have hlen : 0 < (valid_num_pairs y y_hat).length := List.length_pos.mpr hv
    rw [mse, ← hsnd, ← hfst, List.zip_map']
    simp only [compute_loss_numerical, if_pos hlen, List.map_map, List.length_map]
    rfl

/-- Witness for C2: a batch with one valid and one missing label, and a batch
with no valid label. -/
theorem compute_loss_numerical_spec_w :
    compute_loss_numerical (α := ℚ) [some 1, none] [3, 10] = 4 ∧
    compute_loss_numerical (α := ℚ) [none, none] [3, 10] = 0 := by
  constructor
  · rw [compute_loss_numerical_spec [some 1, none] [3, 10] (by decide)]
    have h : (List.filterMap id [some (1 : ℚ), none]) = [1] := by simp
    rw [h]
    norm_num [mse, masked_preds, List.filter]
  · rw [compute_loss_numerical_spec [none, none] [3, 10] (by decide)]
    norm_num

omit [LinearOrderedField α] in
/-- The second components of the pairs kept by the categorical mask are
exactly the logits rows at the positions whose label is valid. -/
lemma valid_cat_pairs_snd (y : List (Option ℤ)) (y_hat : List (List α)) :
    (valid_cat_pairs y y_hat).map Prod.snd = masked_cat_logits y y_hat := by
  unfold valid_cat_pairs masked_cat_logits
  induction y.zip y_hat with
  | nil => rfl
  | cons p t ih =>
    cases hp : p.1 with
    | none => simp [List.filterMap_cons, List.filter_cons, hp, ih]
    | some v =>
      by_cases hv : v = -1 <;>
        simp [List.filterMap_cons, List.filter_cons, hp, hv, ih]

omit [LinearOrderedField α] in
/-- The first components of the pairs kept by the categorical mask are
exactly the labels that are present and differ from `-1` (for equal-length
columns). -/
lemma valid_cat_pairs_fst :
    ∀ (y : List (Option ℤ)) (y_hat : List (List α)), y.length = y_hat.length →
      (valid_cat_pairs y y_hat).map Prod.fst = masked_cat_labels y := by
  intro y
  induction y with
  | nil => intro y_hat h; simp [valid_cat_pairs, masked_cat_labels]
  | cons o t ih =>
    intro y_hat h
    cases y_hat with
    | nil => simp at h
    | cons a as =>
      have ht : t.length = as.length := by simpa using h
      cases o with
      | none =>
        simpa [valid_cat_pairs, masked_cat_labels, List.filterMap_cons] using ih as ht
      | some v =>
        by_cases hv : v = -1 <;>
          simpa [valid_cat_pairs, masked_cat_labels, List.filterMap_cons, hv] using ih as ht

/-- C3: for equal-length label and logits columns, the categorical branch of
`compute_loss` masks out exactly the samples whose label is the `-1` missing
sentinel (or absent), equals the mean cross-entropy over the remaining
samples, and is exactly `0` when none remain. -/
theorem compute_loss_categorical_spec (expF logF : α → α) (y : List (Option ℤ))
    (y_hat : List (List α)) (h : y.length = y_hat.length) :
    compute_loss_categorical expF logF y y_hat =
      if masked_cat_labels y = [] then 0
      else mean_cross_entropy expF logF (masked_cat_logits y y_hat) (masked_cat_labels y) := by
  have hsnd := valid_cat_pairs_snd (α := α) y y_hat
  have hfst := valid_cat_pairs_fst (α := α) y y_hat h
  by_cases hv : valid_cat_pairs y y_hat = []
  · rw [if_pos (by rw [← hfst, hv]; rfl)]
    simp [compute_loss_categorical, hv]
  · have hnil : masked_cat_labels y ≠ [] := by
      rw [← hfst]
      simpa using hv
    rw [if_neg hnil]
    have hlen : 0 < (valid_cat_pairs y y_hat).length := List.length_pos.mpr hv
    rw [mean_cross_entropy, ← hsnd, ← hfst, List.zip_map']
    simp only [compute_loss_categorical, if_pos hlen, List.map_map, List.length_map]
    rfl

/-- Witness for C3: a batch with one valid label, one `-1`-sentinel label and
one absent label, and a batch with no valid label. -/
theorem compute_loss_categorical_spec_w :
    compute_loss_categorical (α := ℚ) id id [some 0, some (-1), none] [[1, 2], [3, 4], [5, 6]] = 2 ∧
    compute_loss_categorical (α := ℚ) id id [some (-1), none] [[1, 2], [3, 4]] = 0 := by
  constructor
  · rw [compute_loss_categorical_spec id id [some 0, some (-1), none]
      [[1, 2], [3, 4], [5, 6]] (by decide)]
    have h1 : masked_cat_labels [some 0, some (-1), none] = [0] := by decide
    have h2 : masked_cat_logits (α := ℚ) [some 0, some (-1), none]
        [[1, 2], [3, 4], [5, 6]] = [[1, 2]] := by
      simp [masked_cat_logits, List.filter]
    rw [h1, h2]
    norm_num [mean_cross_entropy, cross_entropy]
  · rw [compute_loss_categorical_spec id id [some (-1), none] [[1, 2], [3, 4]] (by decide)]
    have h1 : masked_cat_labels [some (-1), none] = [] := by decide
    rw [h1]
    simp

/-- C9 (spec-modelled `cox_ph_loss`): on a batch whose event indicator is
`false` for every sample, the Cox partial-likelihood loss is exactly `0`. -/
theorem cox_ph_loss_zero_events (expF logF : α → α) (risks durations : List α)
    (events : List Bool) (h : ∀ e ∈ events, e = false) :
    cox_ph_loss expF logF risks durations events = 0 := by
  have hnone : ∀ s ∈ risks.zip (durations.zip events),
      (if s.2.2 then
        some (logF (((risks.zip (durations.zip events)).filterMap (fun t =>
          if s.2.1 ≤ t.2.1 then some (expF t.1) else none)).sum) - s.1)
      else none) = (none : Option α) := by
    intro s hs
    have h1 := List.of_mem_zip hs
    have h2 := List.of_mem_zip h1.2
    rw [h s.2.2 h2.2]
    rfl
  unfold cox_ph_loss
  rw [List.filterMap_eq_nil_iff.mpr hnone]
  rfl

/-- Witness for C9: a concrete two-sample batch with no event. -/
theorem cox_ph_loss_zero_events_w :
    cox_ph_loss (α := ℚ) id id [1, 2] [3, 4] [false, false] = 0 :=
  cox_ph_loss_zero_events id id [1, 2] [3, 4] [false, false] (by decide)

/-- Shared case analysis of `predict`: the returned value per variable kind,
with the per-sample maps fused into one pass over the dataset's graphs. -/
lemma predict_cases (m : GNNEarlyModel α γ) (ds : GeomDataset γ) (var : String) :
    (m.variable_types var = .categorical →
      predict m ds var =
        .cats (ds.graphs.map (fun g => argmax_idx (m.mlps var (m.encode g))))) ∧
    (m.variable_types var ≠ .categorical →
      predict m ds var = .nums (ds.graphs.map (fun g => m.mlps var (m.encode g)))) := by
  constructor
  · intro hc
    simp only [predict, forward, load_full_batch, if_pos hc, List.map_map]
    rfl
  · intro hc
    simp only [predict, forward, load_full_batch, if_neg hc, List.map_map]
    rfl

/-- C6: `predict` forwards the whole dataset as one batch (one output row per
sample) and returns the row-wise arg-max class index for a categorical
variable and the raw output rows otherwise; being a pure function of the
model, it updates no parameter. -/
theorem predict_spec (m : GNNEarlyModel α γ) (ds : GeomDataset γ) (var : String) :
    (load_full_batch ds).length = ds.samples.length ∧
    (m.variable_types var = .categorical →
      predict m ds var =
        .cats (ds.graphs.map (fun g => argmax_idx (m.mlps var (m.encode g))))) ∧
    (m.variable_types var ≠ .categorical →
      predict m ds var = .nums (ds.graphs.map (fun g => m.mlps var (m.encode g)))) :=
  ⟨ds.hlen, (predict_cases m ds var).1, (predict_cases m ds var).2⟩

/-- A concrete model over `ℚ` (graphs are trivial), used to instantiate the
inference theorems: `grade` is categorical with two logits, `age` is
numerical. -/
def demo_model : GNNEarlyModel ℚ Unit :=
  ⟨["grade", "age"], fun v => if v = "grade" then .categorical else .numerical,
    false, fun _ => 0, fun _ => [0, 5], fun v e => if v = "grade" then [0, 1] else e⟩

/-- A concrete one-sample dataset for `demo_model`. -/
def demo_ds : GeomDataset Unit := ⟨["s1"], [()], rfl⟩

/-- Witness for C6: both branches of `predict_spec` on `demo_model`. -/
theorem predict_spec_w :
    predict demo_model demo_ds "grade" = .cats [1] ∧
    predict demo_model demo_ds "age" = .nums [[0, 5]] := by
  constructor
  · rw [(predict_spec demo_model demo_ds "grade").2.1 (by decide)]
    decide
  · rw [(predict_spec demo_model demo_ds "age").2.2 (by decide)]
    decide

omit [LinearOrderedField α] in
/-- Evaluating a mapped list at an in-range index, with arbitrary defaults. -/
lemma getD_map_of_lt {β δ : Type} (f : β → δ) (l : List β) {i : ℕ} (hi : i < l.length)
    (d : δ) (d0 : β) : (l.map f).getD i d = f (l.getD i d0) := by
  rw [List.getD_eq_getElem _ _ (by simpa using hi), List.getD_eq_getElem _ _ hi,
    List.getElem_map]

/-- C7: on the same dataset, `predict` and `transform` walk the samples in the
identical (dataset) order: for every in-range index `i`, the `i`-th embedding
row of `transform` and the `i`-th entry of each `predict` output are computed
from the `i`-th graph, while the `i`-th row label of `transform` is the `i`-th
sample identifier. -/
theorem predict_transform_sample_order (m : GNNEarlyModel α γ) (ds : GeomDataset γ)
    (var : String) (i : ℕ) (hi : i < ds.graphs.length) (g0 : γ) :
    (transform m ds).index = ds.samples ∧
    (transform m ds).rows.getD i [] = m.encode (ds.graphs.getD i g0) ∧
    (m.variable_types var = .categorical →
      ∃ l, predict m ds var = .cats l ∧
        l.getD i 0 = argmax_idx (m.mlps var (m.encode (ds.graphs.getD i g0)))) ∧
    (m.variable_types var ≠ .categorical →
      ∃ l, predict m ds var = .nums l ∧
        l.getD i [] = m.mlps var (m.encode (ds.graphs.getD i g0))) := by
  refine ⟨rfl, ?_, ?_, ?_⟩
  · show ((load_full_batch ds).map m.encode).getD i [] = _
    exact getD_map_of_lt m.encode ds.graphs hi [] g0
  · intro hc
    refine ⟨_, (predict_cases m ds var).1 hc, ?_⟩
    exact getD_map_of_lt (fun g => argmax_idx (m.mlps var (m.encode g))) ds.graphs hi 0 g0
  · intro hc
    refine ⟨_, (predict_cases m ds var).2 hc, ?_⟩
    exact getD_map_of_lt (fun g => m.mlps var (m.encode g)) ds.graphs hi [] g0

/-- Witness for C7: index `0` of the one-sample demo dataset. -/
theorem predict_transform_sample_order_w :
    (transform demo_model demo_ds).rows.getD 0 [] =
      demo_model.encode (demo_ds.graphs.getD 0 ()) ∧
    (transform demo_model demo_ds).index = demo_ds.samples := by
  have h := predict_transform_sample_order demo_model demo_ds "grade" 0 (by decide) ()
  exact ⟨h.2.1, h.1⟩

omit [LinearOrderedField α] in
/-- C8: `transform` returns one embedding row per sample, indexed by the
dataset's sample identifiers in dataset order, with one `E<dim>` column label
per latent dimension, and the table depends only on the encoder: any model
with the same encoder (whatever its supervisory heads) yields the same
table. -/
theorem transform_spec (m : GNNEarlyModel α γ) (ds : GeomDataset γ) :
    (transform m ds).index = ds.samples ∧
    (transform m ds).rows.length = ds.samples.length ∧
    (transform m ds).rows = ds.graphs.map m.encode ∧
    (∀ g rest, ds.graphs = g :: rest →
      (transform m ds).columns =
        (List.range (m.encode g).length).map (fun d => "E" ++ toString d)) ∧
    (∀ m' : GNNEarlyModel α γ, m'.encode = m.encode → transform m' ds = transform m ds) := by
  refine ⟨rfl, ?_, rfl, ?_, ?_⟩
  · show ((load_full_batch ds).map m.encode).length = _
    rw [List.length_map]
    exact ds.hlen
  · intro g rest hg
    show (List.range ((((load_full_batch ds).map m.encode).headD []).length)).map _ = _
    rw [load_full_batch, hg]
    rfl
  · intro m' he
    simp only [transform, load_full_batch, he]

/-- Witness for C8: the two-dimensional demo encoder gives columns `E0`, `E1`,
and replacing the heads while keeping the encoder leaves the table
unchanged. -/
theorem transform_spec_w :
    (transform demo_model demo_ds).columns = ["E0", "E1"] ∧
    transform
      ⟨["grade", "age"], fun v => if v = "grade" then .categorical else .numerical,
        false, fun _ => 0, fun _ => [0, 5], fun _ e => e⟩ demo_ds =
      transform demo_model demo_ds := by
  constructor
  · rw [(transform_spec demo_model demo_ds).2.2.2.1 () [] rfl]
    decide
  · exact (transform_spec demo_model demo_ds).2.2.2.2 _ rfl

/-- C10: the head built for a categorical variable has
`len(np.unique(ann[var]))` outputs; when the missing code `-1` occurs in the
annotation column it is counted as one extra class, so the logits have one
more entry than there are valid classes, and `predict`'s arg-max can return
the extra index (the one corresponding to the missing code). -/
theorem categorical_head_missing_class (col : List ℤ) (hmem : (-1 : ℤ) ∈ col) :
    output_dim .categorical col = n_unique col ∧
    n_unique col = n_unique (col.filter (fun v => decide (v ≠ -1))) + 1 ∧
    (∃ (m : GNNEarlyModel ℚ Unit) (ds : GeomDataset Unit) (var : String) (c : List ℤ),
      (-1 : ℤ) ∈ c ∧
      m.variable_types var = .categorical ∧
      (∀ e, (m.mlps var e).length = output_dim .categorical c) ∧
      predict m ds var = .cats [n_unique (c.filter (fun v => decide (v ≠ -1)))]) := by
  refine ⟨rfl, ?_, ?_⟩
  · unfold n_unique
    rw [← List.card_toFinset, ← List.card_toFinset, List.toFinset_filter]
    have he : col.toFinset.filter (fun a => decide (a ≠ -1) = true) =
        col.toFinset.erase (-1) := by
      ext a
      simp [Finset.mem_erase, and_comm]
    rw [he]
    exact (Finset.card_erase_add_one (List.mem_toFinset.mpr hmem)).symm
  · exact ⟨demo_model, demo_ds, "grade", [-1, 0], by decide, by decide,
      fun e => by simp [demo_model, output_dim, n_unique], by decide⟩

/-- Witness for C10: the column `[-1, 0]` (one valid class plus the missing
code) yields a two-output head. -/
theorem categorical_head_missing_class_w :
    output_dim .categorical [-1, 0] = 2 ∧
    n_unique [-1, 0] = n_unique (List.filter (fun v => decide (v ≠ -1)) [-1, 0]) + 1 := by
  have h := categorical_head_missing_class [-1, 0] (by decide)
  exact ⟨by rw [h.1]; decide, h.2.1⟩

end Flexynesis
